import Mathlib

/-!
# Verification of the software 2D vector rasterizer (`vector_renderer.cpp`)

Shallow embedding of the rasterizer core in Lean 4.  IEEE single-precision
floats of the source are modelled as exact rationals (`ℚ`); `(int)` casts of
the source are modelled by `truncQ`, truncation toward zero.  The one math
library call whose value is irrational in general, `sqrt`, is passed in as an
explicit function parameter `sqF : ℚ → ℚ`; no theorem in this file depends on
its values.  The destination image is modelled as a record of a width, a
height, and a total pixel function `ℤ → ℤ → RGBA`; the source's in-place
mutation becomes functional update (`ColorImage.Set`).
-/

/-- `(int)` cast of the source on a float value: truncation toward zero. -/
def truncQ (q : ℚ) : ℤ := if q < 0 then -⌊-q⌋ else ⌊q⌋

theorem truncQ_intCast (n : ℤ) : truncQ (n : ℚ) = n := by
  unfold truncQ
  split
  · rw [← Int.cast_neg, Int.floor_intCast, neg_neg]
  · rw [Int.floor_intCast]

theorem truncQ_of_nonneg {q : ℚ} (hq : 0 ≤ q) : truncQ q = ⌊q⌋ := by
  unfold truncQ
  exact if_neg (not_lt.mpr hq)

/-- `clamp_float` of the source. -/
def clamp_float (val minVal maxVal : ℚ) : ℚ :=
  if val < minVal then minVal
  else if val > maxVal then maxVal
  else val

/-- `Point` of the source: a pair of float canvas coordinates. -/
structure Point where
  x : ℚ
  y : ℚ
deriving DecidableEq

instance : Inhabited Point := ⟨⟨0, 0⟩⟩

/-- `createRect` of the source: the 4-vertex closed rectangle outline. -/
def createRect (x y w h : ℚ) : List Point :=
  [⟨x, y⟩, ⟨x + w, y⟩, ⟨x + w, y + h⟩, ⟨x, y + h⟩]

/-- The 8-bit RGBA pixel of the image collaborator (bytes as integers). -/
structure RGBA where
  r : ℤ
  g : ℤ
  b : ℤ
  a : ℤ
deriving DecidableEq

/-- `ColorF` of the source: floating-point RGBA color. -/
structure ColorF where
  r : ℚ
  g : ℚ
  b : ℚ
  a : ℚ
deriving DecidableEq

/-- `ColorF::toRGBA` of the source: per channel, clamp `channel * 255` to
`[0, 255]` and cast to byte (truncation toward zero). -/
def ColorF.toRGBA (c : ColorF) : RGBA :=
  ⟨truncQ (clamp_float (c.r * 255) 0 255),
   truncQ (clamp_float (c.g * 255) 0 255),
   truncQ (clamp_float (c.b * 255) 0 255),
   truncQ (clamp_float (c.a * 255) 0 255)⟩

/-- `ColorF::fromRGBA` of the source: each byte divided by 255. -/
def ColorF.fromRGBA (c : RGBA) : ColorF :=
  ⟨(c.r : ℚ) / 255, (c.g : ℚ) / 255, (c.b : ℚ) / 255, (c.a : ℚ) / 255⟩

/-! ## Blend modes

The source's `enum BlendMode` gives the five enumerators the values 0..4, and
`blend` takes its mode parameter as a plain `int`. -/

def BLEND_NORMAL : ℤ := 0
def BLEND_MULTIPLY : ℤ := 1
def BLEND_ADD : ℤ := 2
def BLEND_DIFFERENCE : ℤ := 3
def BLEND_OVERLAY : ℤ := 4

/-- The per-channel `overlay_channel` lambda of the source. -/
def overlay_channel (s d : ℚ) : ℚ :=
  if d < 1/2 then 2 * s * d else 1 - 2 * (1 - s) * (1 - d)

/-- `blend` of the source: `r,g,b` start as the destination channels, a
matching mode branch overwrites them, and the result is source-over
composited with `src.a`; the output alpha is the literal `1.0f`. -/
def blend (src dest : ColorF) (mode : ℤ) : ColorF :=
  let alpha := src.a
  let invAlpha := 1 - alpha
  let rgb : ℚ × ℚ × ℚ :=
    if mode = BLEND_NORMAL then
      (src.r, src.g, src.b)
    else if mode = BLEND_MULTIPLY then
      (src.r * dest.r, src.g * dest.g, src.b * dest.b)
    else if mode = BLEND_ADD then
      (clamp_float (src.r + dest.r) 0 1,
       clamp_float (src.g + dest.g) 0 1,
       clamp_float (src.b + dest.b) 0 1)
    else if mode = BLEND_DIFFERENCE then
      (|dest.r - src.r|, |dest.g - src.g|, |dest.b - src.b|)
    else if mode = BLEND_OVERLAY then
      (overlay_channel src.r dest.r,
       overlay_channel src.g dest.g,
       overlay_channel src.b dest.b)
    else
      (dest.r, dest.g, dest.b)
  ⟨rgb.1 * alpha + dest.r * invAlpha,
   rgb.2.1 * alpha + dest.g * invAlpha,
   rgb.2.2 * alpha + dest.b * invAlpha,
   1⟩

/-! ## Gradient -/

/-- `GradientStop` of the source. -/
structure GradientStop where
  position : ℚ
  color : ColorF
deriving DecidableEq

/-- `Gradient` of the source (`isRadial`, geometry, ordered stops). -/
structure Gradient where
  isRadial : Bool
  p1 : Point
  p2 : Point
  radius : ℚ
  stops : List GradientStop
deriving DecidableEq

/-- The linear interpolation the source performs between two located stops:
`f = (t - t0) / (t1 - t0)`, then componentwise lerp of all four channels. -/
def lerpStops (s1 s2 : GradientStop) (t : ℚ) : ColorF :=
  let f := (t - s1.position) / (s2.position - s1.position)
  let c1 := s1.color
  let c2 := s2.color
  ⟨c1.r + (c2.r - c1.r) * f, c1.g + (c2.g - c1.g) * f,
   c1.b + (c2.b - c1.b) * f, c1.a + (c2.a - c1.a) * f⟩

/-- The stop-pair scan of `Gradient::getColorAt`: walk adjacent pairs in
order and interpolate inside the first pair bracketing `t`. -/
def findPair (t : ℚ) : List GradientStop → Option ColorF
  | s1 :: s2 :: rest =>
      if t ≥ s1.position ∧ t ≤ s2.position then some (lerpStops s1 s2 t)
      else findPair t (s2 :: rest)
  | _ => none

/-- The body of `Gradient::getColorAt` on the stop list: empty stops sample
opaque black; `t` at or before the first stop returns its color; `t` at or
after the last stop returns its color; otherwise the bracketing adjacent
pair interpolates, with the last stop's color as the (unreachable in the
source) loop fallback. -/
def getColorAtList (t : ℚ) : List GradientStop → ColorF
  | [] => ⟨0, 0, 0, 1⟩
  | s :: rest =>
      if t ≤ s.position then s.color
      else if t ≥ ((s :: rest).getLast (List.cons_ne_nil s rest)).position then
        ((s :: rest).getLast (List.cons_ne_nil s rest)).color
      else
        (findPair t (s :: rest)).getD
          ((s :: rest).getLast (List.cons_ne_nil s rest)).color

/-- `Gradient::getColorAt` of the source. -/
def Gradient.getColorAt (g : Gradient) (t : ℚ) : ColorF :=
  getColorAtList t g.stops

/-! ## The destination image -/

/-- The image collaborator as seen by the rasterizer: a width, a height, and
a total pixel map (the rasterizer only ever reads and writes in-bounds
pixels; modelling the map as total keeps the embedding simple). -/
structure ColorImage where
  width : ℕ
  height : ℕ
  data : ℤ → ℤ → RGBA

/-- `image.Get(x, y)` of the image collaborator. -/
def ColorImage.Get (img : ColorImage) (x y : ℤ) : RGBA := img.data x y

/-- `image(x, y) = p` of the image collaborator: functional pixel update. -/
def ColorImage.Set (img : ColorImage) (x y : ℤ) (p : RGBA) : ColorImage :=
  ⟨img.width, img.height, fun x0 y0 => if x0 = x ∧ y0 = y then p else img.data x0 y0⟩

theorem ColorImage.eqOfParts (a b : ColorImage) (hw : a.width = b.width)
    (hh : a.height = b.height) (hd : ∀ x y, a.data x y = b.data x y) : a = b := by
  cases a
  cases b
  simp only [ColorImage.mk.injEq]
  exact ⟨hw, hh, funext fun x => funext fun y => hd x y⟩

/-! ## The scanline rasterizer -/

/-- `Edge` of the source: one polygon edge bucket for the scanline fill. -/
structure Edge where
  yMin : ℤ
  yMax : ℤ
  x : ℚ
  mInv : ℚ
deriving DecidableEq

/-- One iteration of the edge-construction loop of `drawPolygon`: skip
integer-horizontal edges, orient upward, truncate the `y` bounds, discard
edges fully outside `[0, height)`, and update the global `y` range. -/
def edgeStep (vertices : List Point) (height : ℤ)
    (acc : List Edge × ℤ × ℤ) (i : ℕ) : List Edge × ℤ × ℤ :=
  let p1 := vertices.getD i default
  let p2 := vertices.getD ((i + 1) % vertices.length) default
  if truncQ p1.y = truncQ p2.y then acc
  else
    let q1 := if p1.y > p2.y then p2 else p1
    let q2 := if p1.y > p2.y then p1 else p2
    let e : Edge := ⟨truncQ q1.y, truncQ q2.y, q1.x, (q2.x - q1.x) / (q2.y - q1.y)⟩
    if e.yMax ≤ 0 ∨ e.yMin ≥ height then acc
    else
      (acc.1 ++ [e],
       if e.yMin < acc.2.1 then e.yMin else acc.2.1,
       if e.yMax > acc.2.2 then e.yMax else acc.2.2)

/-- The edge-construction loop of `drawPolygon`: fold `edgeStep` over the
vertex indices, starting from no edges, `globalMinY = height`,
`globalMaxY = 0`.  Returns `(edges, globalMinY, globalMaxY)`. -/
def buildEdges (vertices : List Point) (height : ℤ) : List Edge × ℤ × ℤ :=
  (List.range vertices.length).foldl (edgeStep vertices height) ([], height, 0)

/-- The integer interval `[a, b)` as a list, the iteration space of the
source's `for` loops. -/
def intRange (a b : ℤ) : List ℤ :=
  (List.range (b - a).toNat).map (fun i : ℕ => a + (i : ℤ))

/-- The scanline-intersection pass of `drawPolygon`: the X intercepts of all
edges active at scanline `y`, in edge order. -/
def nodesAt (edges : List Edge) (y : ℤ) : List ℚ :=
  edges.filterMap fun e =>
    if e.yMin ≤ y ∧ y < e.yMax then some (e.x + e.mInv * ((y - e.yMin : ℤ) : ℚ))
    else none

/-- The even-odd pairing of `drawPolygon`: consecutive disjoint pairs of the
sorted intersection list; a final unpaired node is discarded. -/
def spanPairs : List ℚ → List (ℚ × ℚ)
  | a :: b :: rest => (a, b) :: spanPairs rest
  | _ => []

/-- The per-pixel source color of `drawPolygon`: the base color when no
gradient is supplied, otherwise the gradient sampled at the pixel.  `sqF`
stands for the C library `sqrt`. -/
def sourceColor (sqF : ℚ → ℚ) (color : ColorF) (grad : Option Gradient)
    (x y : ℤ) : ColorF :=
  match grad with
  | none => color
  | some g =>
      let t :=
        if g.isRadial then
          let dx := (x : ℚ) - g.p1.x
          let dy := (y : ℚ) - g.p1.y
          sqF (dx * dx + dy * dy) / g.radius
        else
          let dx := g.p2.x - g.p1.x
          let dy := g.p2.y - g.p1.y
          let lenSq := dx * dx + dy * dy
          let pdx := (x : ℚ) - g.p1.x
          let pdy := (y : ℚ) - g.p1.y
          (pdx * dx + pdy * dy) / lenSq
      g.getColorAt (clamp_float t 0 1)

/-- The per-pixel body of the innermost fill loop: sample the source color,
read the destination pixel, blend, write back. -/
def pixelWrite (sqF : ℚ → ℚ) (color : ColorF) (grad : Option Gradient)
    (blendMode : ℤ) (y : ℤ) (im : ColorImage) (x : ℤ) : ColorImage :=
  let drawColor := sourceColor sqF color grad x y
  let bgColor := ColorF.fromRGBA (im.Get x y)
  im.Set x y (ColorF.toRGBA (blend drawColor bgColor blendMode))

/-- One span of `drawPolygon`: truncate the pair of intercepts to pixel
columns, skip spans fully outside `[0, width)`, clamp partially outside
spans, and fill the surviving columns. -/
def drawSpan (sqF : ℚ → ℚ) (color : ColorF) (grad : Option Gradient)
    (blendMode : ℤ) (width y : ℤ) (im : ColorImage) (pr : ℚ × ℚ) : ColorImage :=
  let startX := truncQ pr.1
  let endX := truncQ pr.2
  if startX ≥ width then im
  else if endX ≤ 0 then im
  else
    let s := if startX < 0 then 0 else startX
    let e := if endX > width then width else endX
    (intRange s e).foldl (pixelWrite sqF color grad blendMode y) im

/-- One scanline of `drawPolygon`: collect the active-edge intercepts, sort
them ascending, pair them even-odd, and fill each span. -/
def drawScanline (sqF : ℚ → ℚ) (color : ColorF) (grad : Option Gradient)
    (blendMode : ℤ) (edges : List Edge) (width : ℤ) (im : ColorImage)
    (y : ℤ) : ColorImage :=
  let nodes := List.insertionSort (fun a b : ℚ => a ≤ b) (nodesAt edges y)
  (spanPairs nodes).foldl (drawSpan sqF color grad blendMode width y) im

/-- `drawPolygon` of the source: early exit below 3 vertices, edge
construction, clamping of the scanline range to `[0, height)`, and the
scanline fill.  `sqF` stands for the C library `sqrt` used by the radial
gradient parameterization. -/
def drawPolygon (sqF : ℚ → ℚ) (image : ColorImage) (vertices : List Point)
    (color : ColorF) (grad : Option Gradient) (blendMode : ℤ) : ColorImage :=
  if vertices.length < 3 then image
  else
    let width : ℤ := image.width
    let height : ℤ := image.height
    let eg := buildEdges vertices height
    let globalMinY := if eg.2.1 < 0 then 0 else eg.2.1
    let globalMaxY := if eg.2.2 > height then height else eg.2.2
    (intRange globalMinY globalMaxY).foldl
      (fun im y => drawScanline sqF color grad blendMode eg.1 width im y) image

/-! ## Write-coverage predicate for the opaque `Normal`, no-gradient case

These definitions mirror the control flow of `drawSpan` / `drawScanline` /
`drawPolygon` exactly, computing *whether* a pixel is written instead of
writing it; they are related to the rasterizer by the characterization
lemmas below. -/

/-- Mirror of `drawSpan`'s skip/clamp logic: does the span write column `x0`? -/
def spanCovers (width x0 : ℤ) (pr : ℚ × ℚ) : Bool :=
  let startX := truncQ pr.1
  let endX := truncQ pr.2
  if startX ≥ width then false
  else if endX ≤ 0 then false
  else
    let s := if startX < 0 then 0 else startX
    let e := if endX > width then width else endX
    decide (s ≤ x0 ∧ x0 < e)

/-- Mirror of `drawScanline`: does some span of scanline `y` write column `x0`? -/
def rowCovers (edges : List Edge) (width y x0 : ℤ) : Bool :=
  (spanPairs (List.insertionSort (fun a b : ℚ => a ≤ b) (nodesAt edges y))).any
    (spanCovers width x0)

/-- Mirror of `drawPolygon`: does the call write pixel `(x0, y0)`? -/
def covered (vertices : List Point) (width height x0 y0 : ℤ) : Bool :=
  if vertices.length < 3 then false
  else
    let eg := buildEdges vertices height
    let globalMinY := if eg.2.1 < 0 then 0 else eg.2.1
    let globalMaxY := if eg.2.2 > height then height else eg.2.2
    decide (globalMinY ≤ y0) && decide (y0 < globalMaxY) &&
      rowCovers eg.1 width y0 x0

/-! ## Checked gradient parameterization

`sourceColorChecked` mirrors `sourceColor` statement-for-statement, but each
division of the gradient parameterization is made fallible: it returns `none`
exactly when the source would feed a zero divisor to `/`.  It instruments the
question whether those divisions are guarded; `sourceColorChecked_eq_some`
below relates it to `sourceColor`. -/

/-- Division that fails on a zero divisor. -/
def checkedDiv (a b : ℚ) : Option ℚ := if b = 0 then none else some (a / b)

/-- `sourceColor` with the two gradient-parameterization divisions made
fallible (`none` on a zero divisor). -/
def sourceColorChecked (sqF : ℚ → ℚ) (color : ColorF) (grad : Option Gradient)
    (x y : ℤ) : Option ColorF :=
  match grad with
  | none => some color
  | some g =>
      let t? :=
        if g.isRadial then
          let dx := (x : ℚ) - g.p1.x
          let dy := (y : ℚ) - g.p1.y
          checkedDiv (sqF (dx * dx + dy * dy)) g.radius
        else
          let dx := g.p2.x - g.p1.x
          let dy := g.p2.y - g.p1.y
          let lenSq := dx * dx + dy * dy
          let pdx := (x : ℚ) - g.p1.x
          let pdy := (y : ℚ) - g.p1.y
          checkedDiv (pdx * dx + pdy * dy) lenSq
      t?.map fun t => g.getColorAt (clamp_float t 0 1)

/-! ## Claim theorems: the blender -/

/-- **C2.** For every source and destination color, each of the five blend
modes produces the per-mode intermediate (`Normal`: source channels;
`Multiply`: product; `Add`: clamped sum; `Difference`: absolute difference;
`Overlay`: the piecewise channel formula) source-over composited with
`src.a`, and the output alpha is always exactly `1`. -/
theorem blend_five_modes (src dest : ColorF) :
    blend src dest BLEND_NORMAL =
      ⟨src.r * src.a + dest.r * (1 - src.a),
       src.g * src.a + dest.g * (1 - src.a),
       src.b * src.a + dest.b * (1 - src.a), 1⟩ ∧
    blend src dest BLEND_MULTIPLY =
      ⟨src.r * dest.r * src.a + dest.r * (1 - src.a),
       src.g * dest.g * src.a + dest.g * (1 - src.a),
       src.b * dest.b * src.a + dest.b * (1 - src.a), 1⟩ ∧
    blend src dest BLEND_ADD =
      ⟨clamp_float (src.r + dest.r) 0 1 * src.a + dest.r * (1 - src.a),
       clamp_float (src.g + dest.g) 0 1 * src.a + dest.g * (1 - src.a),
       clamp_float (src.b + dest.b) 0 1 * src.a + dest.b * (1 - src.a), 1⟩ ∧
    blend src dest BLEND_DIFFERENCE =
      ⟨|dest.r - src.r| * src.a + dest.r * (1 - src.a),
       |dest.g - src.g| * src.a + dest.g * (1 - src.a),
       |dest.b - src.b| * src.a + dest.b * (1 - src.a), 1⟩ ∧
    blend src dest BLEND_OVERLAY =
      ⟨(if dest.r < 1/2 then 2 * src.r * dest.r else 1 - 2 * (1 - src.r) * (1 - dest.r))
         * src.a + dest.r * (1 - src.a),
       (if dest.g < 1/2 then 2 * src.g * dest.g else 1 - 2 * (1 - src.g) * (1 - dest.g))
         * src.a + dest.g * (1 - src.a),
       (if dest.b < 1/2 then 2 * src.b * dest.b else 1 - 2 * (1 - src.b) * (1 - dest.b))
         * src.a + dest.b * (1 - src.a), 1⟩ := by
  refine ⟨?_, ?_, ?_, ?_, ?_⟩ <;>
    simp [blend, BLEND_NORMAL, BLEND_MULTIPLY, BLEND_ADD, BLEND_DIFFERENCE,
      BLEND_OVERLAY, overlay_channel]

/-- **C9.** `blend` takes its mode as a plain integer; for every mode value
outside the five enumerators it leaves the destination channels unchanged
(the intermediate stays initialized to the destination, and
`d * a + d * (1 - a) = d`), with output alpha `1` — it does not fall through
to `Normal`. -/
theorem blend_unknown_mode (mode : ℤ)
    (h : mode ∉ ([BLEND_NORMAL, BLEND_MULTIPLY, BLEND_ADD, BLEND_DIFFERENCE,
      BLEND_OVERLAY] : List ℤ)) (src dest : ColorF) :
    blend src dest mode = ⟨dest.r, dest.g, dest.b, 1⟩ := by
  simp only [List.mem_cons, List.mem_singleton, not_or] at h
  obtain ⟨h0, h1, h2, h3, h4, -⟩ := h
  simp only [blend, if_neg h0, if_neg h1, if_neg h2, if_neg h3, if_neg h4]
  refine ColorF.mk.injEq .. ▸ ?_
  exact ⟨by ring, by ring, by ring, rfl⟩

theorem blend_unknown_mode_witness :
    ((7 : ℤ) ∉ ([BLEND_NORMAL, BLEND_MULTIPLY, BLEND_ADD, BLEND_DIFFERENCE,
      BLEND_OVERLAY] : List ℤ)) ∧
    blend ⟨1, 0, 0, 1/2⟩ ⟨0, 1, 1/3, 1⟩ 7 = ⟨0, 1, 1/3, 1⟩ :=
  ⟨by decide, blend_unknown_mode 7 (by decide) ⟨1, 0, 0, 1/2⟩ ⟨0, 1, 1/3, 1⟩⟩

/-! ## Claim theorems: degenerate vertex lists -/

/-- **C5.** With fewer than 3 vertices, `drawPolygon` returns the image
unchanged: no pixel is written. -/
theorem drawPolygon_degenerate (sqF : ℚ → ℚ) (image : ColorImage)
    (vertices : List Point) (color : ColorF) (grad : Option Gradient)
    (blendMode : ℤ) (h : vertices.length < 3) :
    drawPolygon sqF image vertices color grad blendMode = image := by
  unfold drawPolygon
  exact if_pos h

theorem drawPolygon_degenerate_witness :
    (([⟨0, 0⟩, ⟨7, 5⟩] : List Point).length < 3) ∧
    drawPolygon (fun q => q) ⟨800, 600, fun _ _ => ⟨255, 255, 255, 255⟩⟩
      [⟨0, 0⟩, ⟨7, 5⟩] ⟨1, 0, 0, 1⟩ none BLEND_NORMAL =
      ⟨800, 600, fun _ _ => ⟨255, 255, 255, 255⟩⟩ :=
  ⟨by decide,
   drawPolygon_degenerate (fun q => q) ⟨800, 600, fun _ _ => ⟨255, 255, 255, 255⟩⟩
     [⟨0, 0⟩, ⟨7, 5⟩] ⟨1, 0, 0, 1⟩ none BLEND_NORMAL (by decide)⟩

/-! ## Gradient sampling lemmas -/

theorem ColorF.eqOfChannels (c1 c2 : ColorF) (hr : c1.r = c2.r) (hg : c1.g = c2.g)
    (hb : c1.b = c2.b) (ha : c1.a = c2.a) : c1 = c2 := by
  cases c1
  cases c2
  simp_all

/-- Interpolating at the right stop's position yields the right stop's color
exactly (in exact arithmetic), provided the two positions differ. -/
theorem lerpStops_right (s1 s2 : GradientStop) (h : s1.position ≠ s2.position) :
    lerpStops s1 s2 s2.position = s2.color := by
  unfold lerpStops
  have hd : s2.position - s1.position ≠ 0 := sub_ne_zero.mpr (Ne.symm h)
  rw [div_self hd]
  exact ColorF.eqOfChannels _ _ (by ring) (by ring) (by ring) (by ring)

/-- In a list of stops with strictly increasing positions, every position is
at most the last stop's position. -/
theorem pos_le_getLast :
    ∀ (l : List GradientStop) (h : l ≠ []),
      l.Pairwise (fun a b => a.position < b.position) →
      ∀ s ∈ l, s.position ≤ (l.getLast h).position := by
  intro l
  induction l with
  | nil => intro h; exact absurd rfl h
  | cons a l ih =>
    intro h hp s hs
    cases l with
    | nil =>
      rcases List.mem_cons.mp hs with rfl | hs'
      · exact le_refl _
      · cases hs'
    | cons b m =>
      rw [List.getLast_cons (List.cons_ne_nil b m)]
      rcases List.mem_cons.mp hs with rfl | hs'
      · exact le_of_lt ((List.pairwise_cons.mp hp).1 _
          (List.getLast_mem (List.cons_ne_nil b m)))
      · exact ih (List.cons_ne_nil b m) (List.pairwise_cons.mp hp).2 s hs'

/-- In a list of stops with strictly increasing positions, a member whose
position is at least the last position is the last stop. -/
theorem eq_getLast_of_pos :
    ∀ (l : List GradientStop) (h : l ≠ []),
      l.Pairwise (fun a b => a.position < b.position) →
      ∀ s ∈ l, (l.getLast h).position ≤ s.position → s = l.getLast h := by
  intro l
  induction l with
  | nil => intro h; exact absurd rfl h
  | cons a l ih =>
    intro h hp s hs hge
    cases l with
    | nil =>
      rcases List.mem_cons.mp hs with rfl | hs'
      · rfl
      · cases hs'
    | cons b m =>
      rw [List.getLast_cons (List.cons_ne_nil b m)] at hge ⊢
      rcases List.mem_cons.mp hs with rfl | hs'
      · exact absurd hge (not_le.mpr ((List.pairwise_cons.mp hp).1 _
          (List.getLast_mem (List.cons_ne_nil b m))))
      · exact ih (List.cons_ne_nil b m) (List.pairwise_cons.mp hp).2 s hs' hge

/-- The stop-pair scan hits a non-head member's own position exactly:
under strictly increasing positions the first bracketing pair is
`(predecessor, s)` and the interpolation factor is exactly `1`. -/
theorem findPair_exact :
    ∀ (a : GradientStop) (l : List GradientStop),
      (a :: l).Pairwise (fun u v => u.position < v.position) →
      ∀ s ∈ l, findPair s.position (a :: l) = some s.color := by
  intro a l
  induction l generalizing a with
  | nil => intro _ s hs; cases hs
  | cons b m ih =>
    intro hp s hs
    rcases List.mem_cons.mp hs with rfl | hs'
    · have hab : a.position < s.position :=
        (List.pairwise_cons.mp hp).1 s (List.mem_cons_self ..)
      simp only [findPair]
      rw [if_pos ⟨le_of_lt hab, le_refl _⟩]
      exact congrArg some (lerpStops_right a s (ne_of_lt hab))
    · have hp' := (List.pairwise_cons.mp hp).2
      have hbs : b.position < s.position := (List.pairwise_cons.mp hp').1 s hs'
      simp only [findPair]
      rw [if_neg fun hc => absurd hc.2 (not_le.mpr hbs)]
      exact ih b hp' s hs'

/-! ## Claim theorems: gradient sampling -/

/-- **C3 (amended).** Empty stops sample to `(0,0,0,1)`.  For a non-empty
stop list sorted by position ascending (ties allowed): every `t` at most all
stop positions samples to the *first* stop's color; every `t` at least all
stop positions samples to the *last* stop's color — except that when `t` is
also at most the first stop's position (all positions equal to `t`), the
first stop's early-return wins and the first stop's color is returned. -/
theorem getColorAt_saturation (g : Gradient) (t : ℚ) :
    (g.stops = [] → g.getColorAt t = ⟨0, 0, 0, 1⟩) ∧
    (∀ s0 rest, g.stops = s0 :: rest →
      g.stops.Pairwise (fun a b => a.position ≤ b.position) →
      ((∀ s ∈ g.stops, t ≤ s.position) → g.getColorAt t = s0.color) ∧
      ((∀ s ∈ g.stops, s.position ≤ t) →
        g.getColorAt t =
          if t ≤ s0.position then s0.color
          else ((s0 :: rest).getLast (List.cons_ne_nil s0 rest)).color)) := by
  constructor
  · intro h
    unfold Gradient.getColorAt
    rw [h]
    rfl
  · intro s0 rest hl _hsort
    constructor
    · intro hall
      unfold Gradient.getColorAt
      rw [hl]
      simp only [getColorAtList]
      exact if_pos (hall s0 (by rw [hl]; exact List.mem_cons_self s0 rest))
    · intro hall
      unfold Gradient.getColorAt
      rw [hl]
      simp only [getColorAtList]
      by_cases h1 : t ≤ s0.position
      · rw [if_pos h1, if_pos h1]
      · rw [if_neg h1, if_neg h1,
          if_pos (hall _ (by rw [hl]; exact List.getLast_mem (List.cons_ne_nil s0 rest)))]

theorem getColorAt_saturation_witness :
    (([⟨0, ⟨0, 0, 0, 1⟩⟩, ⟨1, ⟨1, 0, 0, 1⟩⟩] : List GradientStop).Pairwise
      (fun a b => a.position ≤ b.position)) ∧
    (∀ s ∈ ([⟨0, ⟨0, 0, 0, 1⟩⟩, ⟨1, ⟨1, 0, 0, 1⟩⟩] : List GradientStop),
      s.position ≤ (5 : ℚ)) ∧
    Gradient.getColorAt
      ⟨false, ⟨0, 0⟩, ⟨1, 0⟩, 0, [⟨0, ⟨0, 0, 0, 1⟩⟩, ⟨1, ⟨1, 0, 0, 1⟩⟩]⟩ 5 =
      ⟨1, 0, 0, 1⟩ :=
  ⟨by decide, by decide,
   (((getColorAt_saturation
        ⟨false, ⟨0, 0⟩, ⟨1, 0⟩, 0, [⟨0, ⟨0, 0, 0, 1⟩⟩, ⟨1, ⟨1, 0, 0, 1⟩⟩]⟩ 5).2
      ⟨0, ⟨0, 0, 0, 1⟩⟩ [⟨1, ⟨1, 0, 0, 1⟩⟩] rfl (by decide)).2 (by decide)).trans
     (by decide)⟩

/-- **C3 (counterexample).** The claim as stated fails for a stop list that
is sorted ascending with a tie: with two stops at position `0` carrying
different colors and `t = 0`, `t` is at least the largest stop position, yet
`getColorAt` returns the *first* stop's color (the `t <= front` early return
precedes the `t >= back` check), not the last stop's color. -/
theorem getColorAt_saturation_cex :
    (([⟨0, ⟨0, 0, 0, 1⟩⟩, ⟨0, ⟨1, 1, 1, 1⟩⟩] : List GradientStop).Pairwise
      (fun a b => a.position ≤ b.position)) ∧
    (∀ s ∈ ([⟨0, ⟨0, 0, 0, 1⟩⟩, ⟨0, ⟨1, 1, 1, 1⟩⟩] : List GradientStop),
      s.position ≤ (0 : ℚ)) ∧
    (([⟨0, ⟨0, 0, 0, 1⟩⟩, ⟨0, ⟨1, 1, 1, 1⟩⟩] : List GradientStop).getLastD
      ⟨0, ⟨0, 0, 0, 1⟩⟩).color = ⟨1, 1, 1, 1⟩ ∧
    Gradient.getColorAt
      ⟨false, ⟨0, 0⟩, ⟨1, 0⟩, 0, [⟨0, ⟨0, 0, 0, 1⟩⟩, ⟨0, ⟨1, 1, 1, 1⟩⟩]⟩ 0 ≠
      ⟨1, 1, 1, 1⟩ :=
  ⟨by decide, by decide, by decide, by decide⟩

/-- **C7.** For strictly increasing stop positions, sampling exactly at any
stop's position returns that stop's color exactly (exact arithmetic stands
in for "within floating-point tolerance"), including interior stops. -/
theorem getColorAt_stop_exact (g : Gradient)
    (hsort : g.stops.Pairwise (fun a b => a.position < b.position)) :
    ∀ s ∈ g.stops, g.getColorAt s.position = s.color := by
  intro s hs
  unfold Gradient.getColorAt
  rcases hl : g.stops with _ | ⟨s0, rest⟩
  · rw [hl] at hs
    cases hs
  · rw [hl] at hs hsort
    simp only [getColorAtList]
    by_cases h1 : s.position ≤ s0.position
    · have hss0 : s = s0 := by
        rcases List.mem_cons.mp hs with rfl | hs'
        · rfl
        · exact absurd h1 (not_le.mpr ((List.pairwise_cons.mp hsort).1 s hs'))
      rw [if_pos h1, hss0]
    · rw [if_neg h1]
      have hs' : s ∈ rest := by
        rcases List.mem_cons.mp hs with rfl | hs'
        · exact absurd (le_refl s.position) h1
        · exact hs'
      by_cases h2 : s.position ≥
          ((s0 :: rest).getLast (List.cons_ne_nil s0 rest)).position
      · rw [if_pos h2,
          ← eq_getLast_of_pos (s0 :: rest) (List.cons_ne_nil s0 rest) hsort s hs h2]
      · rw [if_neg h2, findPair_exact s0 rest hsort s hs']
        rfl

theorem getColorAt_stop_exact_witness :
    (([⟨0, ⟨0, 0, 1, 1⟩⟩, ⟨1, ⟨0, 1, 0, 1⟩⟩, ⟨2, ⟨1, 0, 0, 1⟩⟩] :
        List GradientStop).Pairwise (fun a b => a.position < b.position)) ∧
    Gradient.getColorAt
      ⟨false, ⟨0, 0⟩, ⟨1, 0⟩, 0,
        [⟨0, ⟨0, 0, 1, 1⟩⟩, ⟨1, ⟨0, 1, 0, 1⟩⟩, ⟨2, ⟨1, 0, 0, 1⟩⟩]⟩ 1 =
      ⟨0, 1, 0, 1⟩ :=
  ⟨by decide,
   getColorAt_stop_exact
     ⟨false, ⟨0, 0⟩, ⟨1, 0⟩, 0,
       [⟨0, ⟨0, 0, 1, 1⟩⟩, ⟨1, ⟨0, 1, 0, 1⟩⟩, ⟨2, ⟨1, 0, 0, 1⟩⟩]⟩
     (by decide) ⟨1, ⟨0, 1, 0, 1⟩⟩ (by decide)⟩

/-! ## Claim theorems: color round-trip -/

/-- One channel of the round-trip: `⌊255 v⌋ / 255` is within `1/255` of `v`
for `v ∈ [0, 1]`. -/
theorem roundtrip_channel (v : ℚ) (h0 : 0 ≤ v) (h1 : v ≤ 1) :
    |((truncQ (clamp_float (v * 255) 0 255) : ℤ) : ℚ) / 255 - v| ≤ 1/255 := by
  have hc : clamp_float (v * 255) 0 255 = v * 255 := by
    unfold clamp_float
    rw [if_neg (not_lt.mpr (by linarith)), if_neg (not_lt.mpr (by linarith))]
  rw [hc, truncQ_of_nonneg (by linarith)]
  have hfl : ((⌊v * 255⌋ : ℤ) : ℚ) ≤ v * 255 := Int.floor_le _
  have hfg : v * 255 - 1 < ((⌊v * 255⌋ : ℤ) : ℚ) := Int.sub_one_lt_floor _
  rw [abs_le]
  constructor <;> linarith

/-- **C8.** For a `ColorF` whose channels lie in `[0, 1]`, converting to
8-bit RGBA (clamp to `[0,255]`, truncate toward zero) and back (divide by
255) moves each of the four channels by at most `1/255`. -/
theorem fromRGBA_toRGBA (c : ColorF)
    (hr : 0 ≤ c.r ∧ c.r ≤ 1) (hg : 0 ≤ c.g ∧ c.g ≤ 1)
    (hb : 0 ≤ c.b ∧ c.b ≤ 1) (ha : 0 ≤ c.a ∧ c.a ≤ 1) :
    |(ColorF.fromRGBA (ColorF.toRGBA c)).r - c.r| ≤ 1/255 ∧
    |(ColorF.fromRGBA (ColorF.toRGBA c)).g - c.g| ≤ 1/255 ∧
    |(ColorF.fromRGBA (ColorF.toRGBA c)).b - c.b| ≤ 1/255 ∧
    |(ColorF.fromRGBA (ColorF.toRGBA c)).a - c.a| ≤ 1/255 := by
  refine ⟨?_, ?_, ?_, ?_⟩
  · exact roundtrip_channel c.r hr.1 hr.2
  · exact roundtrip_channel c.g hg.1 hg.2
  · exact roundtrip_channel c.b hb.1 hb.2
  · exact roundtrip_channel c.a ha.1 ha.2

theorem fromRGBA_toRGBA_witness :
    ((0 : ℚ) ≤ 1 ∧ (1 : ℚ) ≤ 1) ∧
    |(ColorF.fromRGBA (ColorF.toRGBA ⟨1, 0, 1, 1⟩)).r - 1| ≤ 1/255 :=
  ⟨⟨by norm_num, le_refl 1⟩,
   (fromRGBA_toRGBA ⟨1, 0, 1, 1⟩ ⟨by norm_num, le_refl 1⟩ ⟨le_refl 0, by norm_num⟩
     ⟨by norm_num, le_refl 1⟩ ⟨by norm_num, le_refl 1⟩).1⟩

/-! ## Claim theorems: gradient-parameterization divisions -/

/-- A vanishing squared distance forces the two points to coincide. -/
theorem eq_of_lenSq_zero (p q : Point)
    (h : (q.x - p.x) * (q.x - p.x) + (q.y - p.y) * (q.y - p.y) = 0) : p = q := by
  have hx : q.x - p.x = 0 := by
    nlinarith [mul_self_nonneg (q.x - p.x), mul_self_nonneg (q.y - p.y)]
  have hy : q.y - p.y = 0 := by
    nlinarith [mul_self_nonneg (q.x - p.x), mul_self_nonneg (q.y - p.y)]
  cases p
  cases q
  simp only [Point.mk.injEq]
  constructor <;> [linarith [sub_eq_zero.mp hx]; linarith [sub_eq_zero.mp hy]]

/-- **C4 (counterexample).** The per-pixel gradient divisions are *not*
guarded: a radial gradient with `radius = 0` feeds divisor `0` to the
division (so the fallible model of the sampling fails), contrary to the
claim that the parameterization guards it. -/
theorem gradient_division_unguarded_cex :
    (Gradient.radius ⟨true, ⟨0, 0⟩, ⟨0, 0⟩, 0, []⟩ = 0) ∧
    sourceColorChecked (fun q => q) ⟨1, 0, 0, 1⟩
      (some ⟨true, ⟨0, 0⟩, ⟨0, 0⟩, 0, []⟩) 1 0 = none :=
  ⟨rfl, rfl⟩

/-- **C4 (amended).** The gradient divisions carry no guard; they exhaust
their failure cases exactly at a zero divisor.  Whenever the radial radius is
nonzero and the linear endpoints differ, no divisor in the per-pixel
sampling is zero, and the division-checked sampling agrees with the
rasterizer's sampling.  (An unguarded IEEE float division by zero does not
trap; it yields an infinity or NaN, which the subsequent clamp absorbs.) -/
theorem sourceColorChecked_eq_some (sqF : ℚ → ℚ) (color : ColorF)
    (g : Gradient) (x y : ℤ)
    (hrad : g.isRadial = true → g.radius ≠ 0)
    (hlin : g.isRadial = false → g.p1 ≠ g.p2) :
    sourceColorChecked sqF color (some g) x y =
      some (sourceColor sqF color (some g) x y) := by
  unfold sourceColorChecked sourceColor checkedDiv
  cases hbr : g.isRadial with
  | true =>
      simp only [hbr, if_true, if_neg (hrad hbr), Option.map_some']
  | false =>
      have hlen : (g.p2.x - g.p1.x) * (g.p2.x - g.p1.x) +
          (g.p2.y - g.p1.y) * (g.p2.y - g.p1.y) ≠ 0 :=
        fun h0 => (hlin hbr) (eq_of_lenSq_zero g.p1 g.p2 h0)
      simp only [hbr, Bool.false_eq_true, if_false, if_neg hlen, Option.map_some']

theorem sourceColorChecked_eq_some_witness :
    ((Gradient.isRadial ⟨true, ⟨3, 4⟩, ⟨0, 0⟩, 2, []⟩ = true →
      Gradient.radius ⟨true, ⟨3, 4⟩, ⟨0, 0⟩, 2, []⟩ ≠ 0) ∧
     (Gradient.isRadial ⟨true, ⟨3, 4⟩, ⟨0, 0⟩, 2, []⟩ = false →
      Gradient.p1 ⟨true, ⟨3, 4⟩, ⟨0, 0⟩, 2, []⟩ ≠
        Gradient.p2 ⟨true, ⟨3, 4⟩, ⟨0, 0⟩, 2, []⟩)) ∧
    sourceColorChecked (fun q => q) ⟨1, 0, 0, 1⟩
      (some ⟨true, ⟨3, 4⟩, ⟨0, 0⟩, 2, []⟩) 5 6 =
      some (sourceColor (fun q => q) ⟨1, 0, 0, 1⟩
        (some ⟨true, ⟨3, 4⟩, ⟨0, 0⟩, 2, []⟩) 5 6) :=
  ⟨⟨fun _ => by decide, fun h => by cases h⟩,
   sourceColorChecked_eq_some (fun q => q) ⟨1, 0, 0, 1⟩
     ⟨true, ⟨3, 4⟩, ⟨0, 0⟩, 2, []⟩ 5 6 (fun _ => by decide) (fun h => by cases h)⟩

/-! ## Claim theorems: integer-horizontal polygons -/

/-- If every vertex pair visited by the edge loop is integer-horizontal, the
loop leaves its accumulator untouched. -/
theorem foldl_edgeStep_skip (v : List Point) (H : ℤ) :
    ∀ (l : List ℕ) (acc : List Edge × ℤ × ℤ),
      (∀ i ∈ l, truncQ (v.getD i default).y =
        truncQ (v.getD ((i + 1) % v.length) default).y) →
      l.foldl (edgeStep v H) acc = acc := by
  intro l
  induction l with
  | nil => intro acc _; rfl
  | cons i l ih =>
      intro acc hall
      rw [List.foldl_cons]
      have hstep : edgeStep v H acc i = acc := by
        simp only [edgeStep]
        rw [if_pos (hall i (List.mem_cons_self ..))]
      rw [hstep]
      exact ih acc fun j hj => hall j (List.mem_cons_of_mem _ hj)

/-- **C10.** A polygon of 3 or more vertices whose every consecutive pair
(wrap-around included) has equal truncated `y` produces no edges, the
scanline range degenerates (`globalMinY = height`, `globalMaxY = 0`, an
empty range after clamping), and the image is returned unchanged. -/
theorem drawPolygon_all_horizontal (sqF : ℚ → ℚ) (image : ColorImage)
    (vertices : List Point) (color : ColorF) (grad : Option Gradient)
    (blendMode : ℤ) (h3 : 3 ≤ vertices.length)
    (hhor : ∀ i < vertices.length, truncQ (vertices.getD i default).y =
      truncQ (vertices.getD ((i + 1) % vertices.length) default).y) :
    drawPolygon sqF image vertices color grad blendMode = image := by
  have hbe : buildEdges vertices (image.height : ℤ) =
      ([], (image.height : ℤ), 0) := by
    unfold buildEdges
    exact foldl_edgeStep_skip vertices _ _ _
      fun i hi => hhor i (List.mem_range.mp hi)
  have hH : (0 : ℤ) ≤ (image.height : ℤ) := Int.natCast_nonneg _
  simp only [drawPolygon, hbe]
  rw [if_neg (not_lt.mpr h3), if_neg (not_lt.mpr hH), if_neg (not_lt.mpr hH)]
  have hr : intRange (image.height : ℤ) 0 = [] := by
    unfold intRange
    rw [Int.toNat_of_nonpos (by omega)]
    rfl
  rw [hr]
  rfl

theorem drawPolygon_all_horizontal_witness :
    (3 ≤ ([⟨0, 0⟩, ⟨5, 0⟩, ⟨2, 0⟩] : List Point).length) ∧
    drawPolygon (fun q => q) ⟨800, 600, fun _ _ => ⟨255, 255, 255, 255⟩⟩
      [⟨0, 0⟩, ⟨5, 0⟩, ⟨2, 0⟩] ⟨1, 0, 0, 1⟩ none BLEND_NORMAL =
      ⟨800, 600, fun _ _ => ⟨255, 255, 255, 255⟩⟩ :=
  ⟨by decide,
   drawPolygon_all_horizontal (fun q => q)
     ⟨800, 600, fun _ _ => ⟨255, 255, 255, 255⟩⟩
     [⟨0, 0⟩, ⟨5, 0⟩, ⟨2, 0⟩] ⟨1, 0, 0, 1⟩ none BLEND_NORMAL
     (by decide) (by decide)⟩


/-! ## Characterization of the opaque `Normal`, no-gradient fill

With `src.a = 1`, no gradient, and `Normal` mode, the per-pixel write is the
constant pixel `toRGBA (c.r, c.g, c.b, 1)` regardless of the destination, so
the whole rasterization is an overwrite of the `covered` pixel set. -/

theorem blend_opaque_normal (c d : ColorF) (hc : c.a = 1) :
    blend c d BLEND_NORMAL = ⟨c.r, c.g, c.b, 1⟩ := by
  have h0 : blend c d BLEND_NORMAL =
      ⟨c.r * c.a + d.r * (1 - c.a), c.g * c.a + d.g * (1 - c.a),
       c.b * c.a + d.b * (1 - c.a), 1⟩ := rfl
  rw [h0, hc]
  exact ColorF.eqOfChannels _ _ (by ring) (by ring) (by ring) rfl

theorem pixelWrite_opaque_normal (sqF : ℚ → ℚ) (c : ColorF) (hc : c.a = 1)
    (y : ℤ) (im : ColorImage) (x : ℤ) :
    pixelWrite sqF c none BLEND_NORMAL y im x =
      im.Set x y (ColorF.toRGBA ⟨c.r, c.g, c.b, 1⟩) := by
  show im.Set x y
      (ColorF.toRGBA (blend (sourceColor sqF c none x y)
        (ColorF.fromRGBA (im.Get x y)) BLEND_NORMAL)) = _
  rw [show sourceColor sqF c none x y = c from rfl,
    blend_opaque_normal c _ hc]

theorem foldl_set_const (y : ℤ) (k : RGBA) :
    ∀ (l : List ℤ) (img : ColorImage),
      l.foldl (fun im x => im.Set x y k) img =
        ⟨img.width, img.height,
         fun x0 y0 => if x0 ∈ l ∧ y0 = y then k else img.data x0 y0⟩ := by
  intro l
  induction l with
  | nil =>
      intro img
      exact ColorImage.eqOfParts _ _ rfl rfl fun x0 y0 => by simp
  | cons x l ih =>
      intro img
      rw [List.foldl_cons, ih]
      refine ColorImage.eqOfParts _ _ rfl rfl fun x0 y0 => ?_
      simp only [ColorImage.Set, List.mem_cons]
      by_cases h1 : x0 = x <;> by_cases h2 : x0 ∈ l <;> by_cases h3 : y0 = y <;>
        simp [h1, h2, h3]

theorem mem_intRange {a b x : ℤ} : x ∈ intRange a b ↔ a ≤ x ∧ x < b := by
  unfold intRange
  rw [List.mem_map]
  constructor
  · rintro ⟨i, hi, rfl⟩
    rw [List.mem_range] at hi
    constructor <;> omega
  · intro h
    refine ⟨(x - a).toNat, ?_, ?_⟩
    · rw [List.mem_range]
      omega
    · omega

theorem drawSpan_opaque_normal (sqF : ℚ → ℚ) (c : ColorF) (hc : c.a = 1)
    (width y : ℤ) (im : ColorImage) (pr : ℚ × ℚ) :
    drawSpan sqF c none BLEND_NORMAL width y im pr =
      ⟨im.width, im.height,
       fun x0 y0 => if spanCovers width x0 pr = true ∧ y0 = y
         then ColorF.toRGBA ⟨c.r, c.g, c.b, 1⟩ else im.data x0 y0⟩ := by
  unfold drawSpan spanCovers
  by_cases h1 : truncQ pr.1 ≥ width
  · rw [if_pos h1]
    simp only [if_pos h1]
    exact ColorImage.eqOfParts _ _ rfl rfl fun x0 y0 => by simp
  · rw [if_neg h1]
    simp only [if_neg h1]
    by_cases h2 : truncQ pr.2 ≤ 0
    · rw [if_pos h2]
      simp only [if_pos h2]
      exact ColorImage.eqOfParts _ _ rfl rfl fun x0 y0 => by simp
    · rw [if_neg h2]
      simp only [if_neg h2]
      rw [List.foldl_ext (pixelWrite sqF c none BLEND_NORMAL y)
          (fun im0 x => im0.Set x y (ColorF.toRGBA ⟨c.r, c.g, c.b, 1⟩)) im
          (fun im0 x _ => pixelWrite_opaque_normal sqF c hc y im0 x),
        foldl_set_const]
      refine ColorImage.eqOfParts _ _ rfl rfl fun x0 y0 => ?_
      simp only [mem_intRange, decide_eq_true_eq]

theorem foldl_drawSpan_opaque_normal (sqF : ℚ → ℚ) (c : ColorF) (hc : c.a = 1)
    (width y : ℤ) :
    ∀ (prs : List (ℚ × ℚ)) (im : ColorImage),
      prs.foldl (drawSpan sqF c none BLEND_NORMAL width y) im =
        ⟨im.width, im.height,
         fun x0 y0 => if prs.any (spanCovers width x0) = true ∧ y0 = y
           then ColorF.toRGBA ⟨c.r, c.g, c.b, 1⟩ else im.data x0 y0⟩ := by
  intro prs
  induction prs with
  | nil =>
      intro im
      exact ColorImage.eqOfParts _ _ rfl rfl fun x0 y0 => by simp
  | cons pr prs ih =>
      intro im
      rw [List.foldl_cons, ih, drawSpan_opaque_normal sqF c hc width y im pr]
      refine ColorImage.eqOfParts _ _ rfl rfl fun x0 y0 => ?_
      simp only [List.any_cons, Bool.or_eq_true]
      by_cases h1 : y0 = y <;> by_cases h2 : spanCovers width x0 pr = true <;>
        by_cases h3 : prs.any (spanCovers width x0) = true <;> simp [h1, h2, h3]

theorem drawScanline_opaque_normal (sqF : ℚ → ℚ) (c : ColorF) (hc : c.a = 1)
    (edges : List Edge) (width : ℤ) (im : ColorImage) (y : ℤ) :
    drawScanline sqF c none BLEND_NORMAL edges width im y =
      ⟨im.width, im.height,
       fun x0 y0 => if rowCovers edges width y x0 = true ∧ y0 = y
         then ColorF.toRGBA ⟨c.r, c.g, c.b, 1⟩ else im.data x0 y0⟩ := by
  unfold drawScanline rowCovers
  exact foldl_drawSpan_opaque_normal sqF c hc width y _ im

theorem foldl_drawScanline_opaque_normal (sqF : ℚ → ℚ) (c : ColorF) (hc : c.a = 1)
    (edges : List Edge) (width : ℤ) :
    ∀ (ys : List ℤ) (im : ColorImage),
      ys.foldl (fun im0 y => drawScanline sqF c none BLEND_NORMAL edges width im0 y) im =
        ⟨im.width, im.height,
         fun x0 y0 => if y0 ∈ ys ∧ rowCovers edges width y0 x0 = true
           then ColorF.toRGBA ⟨c.r, c.g, c.b, 1⟩ else im.data x0 y0⟩ := by
  intro ys
  induction ys with
  | nil =>
      intro im
      exact ColorImage.eqOfParts _ _ rfl rfl fun x0 y0 => by simp
  | cons y ys ih =>
      intro im
      rw [List.foldl_cons, ih, drawScanline_opaque_normal sqF c hc edges width im y]
      refine ColorImage.eqOfParts _ _ rfl rfl fun x0 y0 => ?_
      simp only [List.mem_cons]
      by_cases h1 : y0 = y
      · subst h1
        by_cases h3 : rowCovers edges width y0 x0 = true <;> simp [h3]
      · by_cases h2 : y0 ∈ ys <;>
          by_cases h3 : rowCovers edges width y0 x0 = true <;> simp [h1, h2, h3]

/-- The opaque `Normal`, no-gradient rasterization is exactly an overwrite of
the `covered` pixel set with the constant pixel `toRGBA (c.r, c.g, c.b, 1)`;
in particular the written set depends only on the vertices and the image
dimensions, never on the pixel contents. -/
theorem drawPolygon_opaque_normal (sqF : ℚ → ℚ) (img : ColorImage)
    (vs : List Point) (c : ColorF) (hc : c.a = 1) :
    drawPolygon sqF img vs c none BLEND_NORMAL =
      ⟨img.width, img.height,
       fun x0 y0 =>
         if covered vs (img.width : ℤ) (img.height : ℤ) x0 y0 = true
         then ColorF.toRGBA ⟨c.r, c.g, c.b, 1⟩ else img.data x0 y0⟩ := by
  by_cases h3 : vs.length < 3
  · unfold drawPolygon
    rw [if_pos h3]
    refine ColorImage.eqOfParts _ _ rfl rfl fun x0 y0 => ?_
    simp [covered, h3]
  · unfold drawPolygon
    rw [if_neg h3]
    rw [foldl_drawScanline_opaque_normal sqF c hc]
    refine ColorImage.eqOfParts _ _ rfl rfl fun x0 y0 => ?_
    simp only [covered, h3, if_false, mem_intRange, Bool.and_eq_true,
      decide_eq_true_eq, and_assoc]

/-! ## Claim theorems: idempotence of the opaque Normal fill -/

/-- **C6.** Drawing the same polygon twice with the same fully opaque color,
no gradient, and `Normal` mode gives the same image as drawing it once: the
written pixel set depends only on the vertices and the image dimensions, and
each written pixel receives the destination-independent constant
`toRGBA (c.r, c.g, c.b, 1)`. -/
theorem drawPolygon_idempotent_opaque_normal (sqF : ℚ → ℚ) (img : ColorImage)
    (vs : List Point) (c : ColorF) (hc : c.a = 1) :
    drawPolygon sqF (drawPolygon sqF img vs c none BLEND_NORMAL) vs c none
      BLEND_NORMAL = drawPolygon sqF img vs c none BLEND_NORMAL := by
  rw [drawPolygon_opaque_normal sqF img vs c hc,
    drawPolygon_opaque_normal sqF _ vs c hc]
  refine ColorImage.eqOfParts _ _ rfl rfl fun x0 y0 => ?_
  by_cases hcov : covered vs (img.width : ℤ) (img.height : ℤ) x0 y0 = true <;>
    simp [hcov]

theorem drawPolygon_idempotent_opaque_normal_witness :
    ((⟨1, 0, 0, 1⟩ : ColorF).a = 1) ∧
    drawPolygon (fun q => q)
      (drawPolygon (fun q => q) ⟨8, 8, fun _ _ => ⟨255, 255, 255, 255⟩⟩
        [⟨0, 0⟩, ⟨4, 0⟩, ⟨0, 4⟩] ⟨1, 0, 0, 1⟩ none BLEND_NORMAL)
      [⟨0, 0⟩, ⟨4, 0⟩, ⟨0, 4⟩] ⟨1, 0, 0, 1⟩ none BLEND_NORMAL =
    drawPolygon (fun q => q) ⟨8, 8, fun _ _ => ⟨255, 255, 255, 255⟩⟩
      [⟨0, 0⟩, ⟨4, 0⟩, ⟨0, 4⟩] ⟨1, 0, 0, 1⟩ none BLEND_NORMAL :=
  ⟨rfl,
   drawPolygon_idempotent_opaque_normal (fun q => q)
     ⟨8, 8, fun _ _ => ⟨255, 255, 255, 255⟩⟩
     [⟨0, 0⟩, ⟨4, 0⟩, ⟨0, 4⟩] ⟨1, 0, 0, 1⟩ rfl⟩

/-! ## The axis-aligned integer rectangle -/

theorem truncQ_intCast_add (m n : ℤ) :
    truncQ ((m : ℚ) + (n : ℚ)) = m + n := by
  rw [← Int.cast_add]
  exact truncQ_intCast _

/-- Edge construction on the integer rectangle outline: the two horizontal
sides are skipped, the two vertical sides survive with inverse slope `0`,
and the global scanline range is `[y, y + h)`. -/
theorem buildEdges_rect (x y w h H : ℤ) (hh : 0 < h) (hy : 0 ≤ y)
    (hyh : y + h ≤ H) :
    buildEdges (createRect (x : ℚ) (y : ℚ) (w : ℚ) (h : ℚ)) H =
      ([⟨y, y + h, (x : ℚ) + (w : ℚ), 0⟩, ⟨y, y + h, (x : ℚ), 0⟩], y, y + h) := by
  have hhq : (0 : ℚ) < (h : ℚ) := by exact_mod_cast hh
  have hne1 : ¬ (truncQ ((y : ℚ)) = truncQ ((y : ℚ) + (h : ℚ))) := by
    rw [truncQ_intCast, truncQ_intCast_add]
    omega
  have hne3 : ¬ (truncQ ((y : ℚ) + (h : ℚ)) = truncQ ((y : ℚ))) := by
    rw [truncQ_intCast, truncQ_intCast_add]
    omega
  have hsw : ¬ ((y : ℚ) > (y : ℚ) + (h : ℚ)) := by
    simp only [gt_iff_lt]
    linarith
  have hsw3 : (y : ℚ) + (h : ℚ) > (y : ℚ) := by
    simp only [gt_iff_lt]
    linarith
  have hb : ¬ (y + h ≤ 0 ∨ y ≥ H) := by omega
  have h0 : buildEdges (createRect (x : ℚ) (y : ℚ) (w : ℚ) (h : ℚ)) H =
      edgeStep (createRect (x : ℚ) (y : ℚ) (w : ℚ) (h : ℚ)) H
        (edgeStep (createRect (x : ℚ) (y : ℚ) (w : ℚ) (h : ℚ)) H
          (edgeStep (createRect (x : ℚ) (y : ℚ) (w : ℚ) (h : ℚ)) H
            (edgeStep (createRect (x : ℚ) (y : ℚ) (w : ℚ) (h : ℚ)) H
              ([], H, 0) 0) 1) 2) 3 := rfl
  have s0 : edgeStep (createRect (x : ℚ) (y : ℚ) (w : ℚ) (h : ℚ)) H
      ([], H, 0) 0 = ([], H, 0) := if_pos rfl
  have hpA : (createRect (x : ℚ) (y : ℚ) (w : ℚ) (h : ℚ)).getD 1 default =
      ⟨(x : ℚ) + (w : ℚ), (y : ℚ)⟩ := by
    simp [createRect]
  have hpB : (createRect (x : ℚ) (y : ℚ) (w : ℚ) (h : ℚ)).getD
      ((1 + 1) % (createRect (x : ℚ) (y : ℚ) (w : ℚ) (h : ℚ)).length) default =
      ⟨(x : ℚ) + (w : ℚ), (y : ℚ) + (h : ℚ)⟩ := by
    simp [createRect]
  have hpC : (createRect (x : ℚ) (y : ℚ) (w : ℚ) (h : ℚ)).getD 3 default =
      ⟨(x : ℚ), (y : ℚ) + (h : ℚ)⟩ := by
    simp [createRect]
  have hpD : (createRect (x : ℚ) (y : ℚ) (w : ℚ) (h : ℚ)).getD
      ((3 + 1) % (createRect (x : ℚ) (y : ℚ) (w : ℚ) (h : ℚ)).length) default =
      ⟨(x : ℚ), (y : ℚ)⟩ := by
    simp [createRect]
  have s1 : edgeStep (createRect (x : ℚ) (y : ℚ) (w : ℚ) (h : ℚ)) H
      ([], H, 0) 1 = ([⟨y, y + h, (x : ℚ) + (w : ℚ), 0⟩], y, y + h) := by
    unfold edgeStep
    rw [hpA, hpB]
    dsimp only
    rw [if_neg hne1]
    rw [if_neg hsw, if_neg hsw]
    dsimp only
    rw [truncQ_intCast, truncQ_intCast_add]
    rw [if_neg hb]
    rw [if_pos (show y < H by omega), if_pos (show y + h > 0 by omega)]
    rw [List.nil_append,
      show (x : ℚ) + (w : ℚ) - ((x : ℚ) + (w : ℚ)) = 0 from sub_self _, zero_div]
  have s2 : edgeStep (createRect (x : ℚ) (y : ℚ) (w : ℚ) (h : ℚ)) H
      ([⟨y, y + h, (x : ℚ) + (w : ℚ), 0⟩], y, y + h) 2 =
      ([⟨y, y + h, (x : ℚ) + (w : ℚ), 0⟩], y, y + h) := if_pos rfl
  have s3 : edgeStep (createRect (x : ℚ) (y : ℚ) (w : ℚ) (h : ℚ)) H
      ([⟨y, y + h, (x : ℚ) + (w : ℚ), 0⟩], y, y + h) 3 =
      ([⟨y, y + h, (x : ℚ) + (w : ℚ), 0⟩, ⟨y, y + h, (x : ℚ), 0⟩], y, y + h) := by
    unfold edgeStep
    rw [hpC, hpD]
    dsimp only
    rw [if_neg hne3]
    rw [if_pos hsw3, if_pos hsw3]
    dsimp only
    rw [truncQ_intCast, truncQ_intCast_add]
    rw [if_neg hb]
    rw [if_neg (show ¬ (y < y) by omega), if_neg (show ¬ (y + h > y + h) by omega)]
    rw [show (x : ℚ) - (x : ℚ) = 0 from sub_self _, zero_div]
    rfl
  rw [h0, s0, s1, s2, s3]

/-- Both vertical rectangle edges are active on every scanline of
`[y, y + h)`, with constant X intercepts (inverse slope `0`). -/
theorem nodesAt_rect (x y w h y0 : ℤ) (hy0 : y ≤ y0) (hy0h : y0 < y + h) :
    nodesAt [⟨y, y + h, (x : ℚ) + (w : ℚ), 0⟩, ⟨y, y + h, (x : ℚ), 0⟩] y0 =
      [(x : ℚ) + (w : ℚ), (x : ℚ)] := by
  unfold nodesAt
  simp only [List.filterMap_cons, List.filterMap_nil]
  rw [if_pos (⟨hy0, hy0h⟩ : y ≤ y0 ∧ y0 < y + h),
    if_pos (⟨hy0, hy0h⟩ : y ≤ y0 ∧ y0 < y + h)]
  rw [zero_mul, add_zero, add_zero]

theorem sort_two {a b : ℚ} (hab : ¬ (a ≤ b)) :
    List.insertionSort (fun u v : ℚ => u ≤ v) [a, b] = [b, a] := by
  simp [List.insertionSort, List.orderedInsert, hab]

/-- On an in-range scanline, the rectangle row covers exactly the pixel
columns of `[x, x + w)`. -/
theorem rowCovers_rect (x y w h W y0 x0 : ℤ) (hw : 0 < w) (hx : 0 ≤ x)
    (hxw : x + w ≤ W) (hy0 : y ≤ y0) (hy0h : y0 < y + h) :
    rowCovers [⟨y, y + h, (x : ℚ) + (w : ℚ), 0⟩, ⟨y, y + h, (x : ℚ), 0⟩] W y0 x0 =
      decide (x ≤ x0 ∧ x0 < x + w) := by
  have hwq : (0 : ℚ) < (w : ℚ) := by exact_mod_cast hw
  unfold rowCovers
  rw [nodesAt_rect x y w h y0 hy0 hy0h]
  rw [sort_two (show ¬ ((x : ℚ) + (w : ℚ) ≤ (x : ℚ)) by linarith)]
  rw [show spanPairs [(x : ℚ), (x : ℚ) + (w : ℚ)] =
    [((x : ℚ), (x : ℚ) + (w : ℚ))] from rfl]
  rw [show ∀ pr : ℚ × ℚ, [pr].any (spanCovers W x0) = spanCovers W x0 pr from
    fun pr => by simp]
  unfold spanCovers
  dsimp only
  rw [truncQ_intCast, truncQ_intCast_add]
  rw [if_neg (show ¬ (x ≥ W) by omega), if_neg (show ¬ (x + w ≤ 0) by omega)]
  rw [if_neg (show ¬ (x < 0) by omega), if_neg (show ¬ (x + w > W) by omega)]

/-- The rectangle's covered pixel set is exactly the half-open box
`[x, x + w) × [y, y + h)`. -/
theorem covered_rect (x y w h W H x0 y0 : ℤ) (hw : 0 < w) (hh : 0 < h)
    (hx : 0 ≤ x) (hy : 0 ≤ y) (hxw : x + w ≤ W) (hyh : y + h ≤ H) :
    (covered (createRect (x : ℚ) (y : ℚ) (w : ℚ) (h : ℚ)) W H x0 y0 = true) ↔
      (x ≤ x0 ∧ x0 < x + w ∧ y ≤ y0 ∧ y0 < y + h) := by
  simp only [covered]
  rw [if_neg (show ¬ ((createRect (x : ℚ) (y : ℚ) (w : ℚ) (h : ℚ)).length < 3)
    from by norm_num [createRect])]
  rw [buildEdges_rect x y w h H hh hy hyh]
  dsimp only
  rw [if_neg (show ¬ (y < 0) by omega), if_neg (show ¬ (y + h > H) by omega)]
  by_cases hy0 : y ≤ y0 ∧ y0 < y + h
  · rw [rowCovers_rect x y w h W y0 x0 hw hx hxw hy0.1 hy0.2]
    simp only [Bool.and_eq_true, decide_eq_true_eq]
    constructor
    · rintro ⟨⟨h1, h2⟩, h3, h4⟩
      exact ⟨h3, h4, h1, h2⟩
    · rintro ⟨h3, h4, h1, h2⟩
      exact ⟨⟨h1, h2⟩, h3, h4⟩
  · simp only [Bool.and_eq_true, decide_eq_true_eq]
    constructor
    · rintro ⟨⟨h1, h2⟩, -⟩
      exact absurd ⟨h1, h2⟩ hy0
    · rintro ⟨-, -, h1, h2⟩
      exact absurd ⟨h1, h2⟩ hy0

/-- **C1.** Filling the axis-aligned rectangle with integer corners
`(x, y, x+w, y+h)`, given as its 4-vertex outline, with an opaque base
color, no gradient, and `Normal` mode sets exactly the pixels of the
half-open box `[x, x+w) × [y, y+h)` to that color (as an 8-bit pixel,
`c.toRGBA`) and leaves every other pixel unchanged. -/
theorem drawPolygon_rect_coverage (sqF : ℚ → ℚ) (img : ColorImage)
    (x y w h : ℤ) (c : ColorF) (hw : 0 < w) (hh : 0 < h) (hx : 0 ≤ x)
    (hy : 0 ≤ y) (hxw : x + w ≤ (img.width : ℤ))
    (hyh : y + h ≤ (img.height : ℤ)) (hc : c.a = 1) (x0 y0 : ℤ) :
    (drawPolygon sqF img (createRect (x : ℚ) (y : ℚ) (w : ℚ) (h : ℚ)) c none
        BLEND_NORMAL).data x0 y0 =
      if x ≤ x0 ∧ x0 < x + w ∧ y ≤ y0 ∧ y0 < y + h
      then c.toRGBA else img.data x0 y0 := by
  rw [drawPolygon_opaque_normal sqF img _ c hc]
  have hcc : (⟨c.r, c.g, c.b, 1⟩ : ColorF) = c := by
    obtain ⟨r, g, b, a⟩ := c
    cases hc
    rfl
  dsimp only
  exact if_congr (covered_rect x y w h _ _ x0 y0 hw hh hx hy hxw hyh)
    (congrArg ColorF.toRGBA hcc) rfl

theorem drawPolygon_rect_coverage_witness :
    ((0 : ℤ) < 200 ∧ (0 : ℤ) < 150 ∧ (0 : ℤ) ≤ 50 ∧
     (50 : ℤ) + 200 ≤ ((800 : ℕ) : ℤ) ∧ (50 : ℤ) + 150 ≤ ((600 : ℕ) : ℤ) ∧
     (⟨1, 0, 0, 1⟩ : ColorF).a = 1) ∧
    (drawPolygon (fun q => q) ⟨800, 600, fun _ _ => ⟨255, 255, 255, 255⟩⟩
        (createRect ((50 : ℤ) : ℚ) ((50 : ℤ) : ℚ) ((200 : ℤ) : ℚ) ((150 : ℤ) : ℚ))
        ⟨1, 0, 0, 1⟩ none BLEND_NORMAL).data 100 100 =
      ColorF.toRGBA ⟨1, 0, 0, 1⟩ ∧
    (drawPolygon (fun q => q) ⟨800, 600, fun _ _ => ⟨255, 255, 255, 255⟩⟩
        (createRect ((50 : ℤ) : ℚ) ((50 : ℤ) : ℚ) ((200 : ℤ) : ℚ) ((150 : ℤ) : ℚ))
        ⟨1, 0, 0, 1⟩ none BLEND_NORMAL).data 49 49 = ⟨255, 255, 255, 255⟩ :=
  ⟨⟨by decide, by decide, by decide, by decide, by decide, rfl⟩,
   (drawPolygon_rect_coverage (fun q => q)
       ⟨800, 600, fun _ _ => ⟨255, 255, 255, 255⟩⟩ 50 50 200 150 ⟨1, 0, 0, 1⟩
       (by decide) (by decide) (by decide) (by decide) (by decide) (by decide)
       rfl 100 100).trans (if_pos (by decide)),
   (drawPolygon_rect_coverage (fun q => q)
       ⟨800, 600, fun _ _ => ⟨255, 255, 255, 255⟩⟩ 50 50 200 150 ⟨1, 0, 0, 1⟩
       (by decide) (by decide) (by decide) (by decide) (by decide) (by decide)
       rfl 49 49).trans (if_neg (by decide))⟩
